import Mathlib

/-- UTF-8 encoding of one unicode scalar value, as byte values. -/
def utf8EncodeChar (c : Char) : List Nat :=
  let n := c.toNat
  if n < 0x80 then [n]
  else if n < 0x800 then [0xC0 + n / 64, 0x80 + n % 64]
  else if n < 0x10000 then [0xE0 + n / 4096, 0x80 + n / 64 % 64, 0x80 + n % 64]
  else [0xF0 + n / 0x40000, 0x80 + n / 4096 % 64, 0x80 + n / 64 % 64, 0x80 + n % 64]

/-- UTF-8 byte sequence of a Rust string (`str::as_bytes`, `str::len` is its length). -/
def utf8Bytes : List Char → List Nat
  | [] => []
  | c :: rest => utf8EncodeChar c ++ utf8Bytes rest

/-- Whether a byte is a UTF-8 continuation byte; a byte position inside a Rust
string is a character boundary exactly when the byte at it (if any) is not a
continuation byte. -/
def utf8Cont (b : Nat) : Bool := 128 ≤ b && b < 192

/-- The 256-bit security key of `security.rs`: `pub struct SecurityKey(KeyBytes)`
with `KeyBytes = [u8; 32]`.  The 32 bytes are stored as a list; well-formed
keys have length 32 (`SecurityKey.wf`). -/
structure SecurityKey where
  bytes : List Nat
deriving DecidableEq

/-- Well-formedness of a key value: exactly 32 byte values. -/
def SecurityKey.wf (k : SecurityKey) : Prop :=
  k.bytes.length = 32 ∧ ∀ b ∈ k.bytes, b < 256

/-- Mirrors `SecurityKey::from_bytes`. -/
def SecurityKey.from_bytes (bs : List Nat) : SecurityKey := ⟨bs⟩

/-- Error kinds a key-parsing call can produce, following `error.rs`:
`wrongLength` is `Error::security_key_wrong(WRONG_LENGTH_ERROR)`,
`parseInt` is `ErrorKind::NumParseIntError` (from `u8::from_str_radix`),
`base64` is `ErrorKind::Base64DecodeError`, and `notSuitable` is the generic
`from_string` failure message. -/
inductive KeyError
  | wrongLength
  | parseInt
  | base64
  | notSuitable
deriving DecidableEq

/-- Outcome of a key-parsing call: success, an error, or a Rust panic
(reachable in `from_hex` through byte slicing of a multi-byte string). -/
inductive KResult
  | ok (k : SecurityKey)
  | err (e : KeyError)
  | panicked
deriving DecidableEq

/-- Value of one byte as a hexadecimal digit, mirroring
`char::to_digit(16)` applied to a single byte: ASCII `0-9`, `a-f`, `A-F`. -/
def hexVal (b : Nat) : Option Nat :=
  if 48 ≤ b ∧ b ≤ 57 then some (b - 48)
  else if 97 ≤ b ∧ b ≤ 102 then some (b - 87)
  else if 65 ≤ b ∧ b ≤ 70 then some (b - 55)
  else none

/-- Accumulating digit loop of `u8::from_str_radix` in base 16 with the u8
overflow bound: fails on a non-digit byte or when the value leaves `u8`. -/
def u8HexDigits : Nat → List Nat → Option Nat
  | acc, [] => some acc
  | acc, d :: ds =>
    match hexVal d with
    | none => none
    | some v => if acc * 16 + v < 256 then u8HexDigits (acc * 16 + v) ds else none

/-- Models `u8::from_str_radix(s, 16)` on the bytes of `s`: an optional single
leading `+` (byte 43) is accepted for the unsigned type, a leading `-` is not;
an empty string or an empty digit sequence after the sign fails. -/
def u8FromStrRadix16 (bs : List Nat) : Option Nat :=
  match bs with
  | [] => none
  | b :: rest =>
    if b = 43 then
      match rest with
      | [] => none
      | _ => u8HexDigits 0 rest
    else u8HexDigits 0 bs

/-- Result of the pair-parsing loop of `from_hex`. -/
inductive PairsResult
  | ok (bytes : List Nat)
  | parseErr
  | panicked
deriving DecidableEq

/-- Whether the byte position right after a two-byte slice is a character
boundary: yes at the end of the string, else the next byte must not be a
continuation byte. -/
def boundaryAfter : List Nat → Bool
  | [] => true
  | c :: _ => !utf8Cont c

/-- The loop of `SecurityKey::from_hex`: `for i in (0..64).step_by(2)` parses
`u8::from_str_radix(&hex[i..i + 2], 16)`.  Each step slices two bytes; the
slice panics when its end is not a character boundary (its start is one by
construction).  A parse error aborts the loop (`?`), so a later boundary
violation is not reached. -/
def parsePairs : List Nat → PairsResult
  | [] => .ok []
  | [_] => .panicked
  | a :: b :: rest =>
    if boundaryAfter rest then
      match u8FromStrRadix16 [a, b] with
      | some v =>
        match parsePairs rest with
        | .ok vs => .ok (v :: vs)
        | e => e
      | none => .parseErr
    else .panicked

/-- Mirrors `SecurityKey::from_hex`: requires byte length exactly 64, then
decodes two bytes at a time. -/
def SecurityKey.from_hex (s : List Char) : KResult :=
  let bs := utf8Bytes s
  if bs.length ≠ 64 then .err .wrongLength
  else
    match parsePairs bs with
    | .ok bytes => .ok ⟨bytes⟩
    | .parseErr => .err .parseInt
    | .panicked => .panicked

/-- Nibble-to-character table `UPPER` of `SecurityKey::hex`. -/
def hexUpperChars : List Char := "0123456789ABCDEF".toList

/-- Nibble-to-character table `LOWER` of `SecurityKey::hex`. -/
def hexLowerChars : List Char := "0123456789abcdef".toList

/-- One `mapper[...]` lookup of `SecurityKey::hex`. -/
def hexMap (upper : Bool) (i : Nat) : Char :=
  (if upper then hexUpperChars else hexLowerChars).getD i '0'

/-- The rendering loop of `SecurityKey::hex`: per byte it pushes
`mapper[byte >> 4]` then `mapper[byte & 0x0F]`. -/
def hexRender (upper : Bool) : List Nat → List Char
  | [] => []
  | b :: rest => hexMap upper (b / 16) :: hexMap upper (b % 16) :: hexRender upper rest

/-- Mirrors `SecurityKey::hex(upper)`. -/
def SecurityKey.hex (k : SecurityKey) (upper : Bool) : List Char :=
  hexRender upper k.bytes

/-- Value of one byte as a standard-alphabet base64 symbol (`A-Z`, `a-z`,
`0-9`, `+`, `/`), as in the decode table of the `base64` crate used by
`SecurityKey::from_base64`; the padding byte `=` is not a symbol. -/
def b64Val (b : Nat) : Option Nat :=
  if 65 ≤ b ∧ b ≤ 90 then some (b - 65)
  else if 97 ≤ b ∧ b ≤ 122 then some (b - 71)
  else if 48 ≤ b ∧ b ≤ 57 then some (b + 4)
  else if b = 43 then some 62
  else if b = 47 then some 63
  else none

/-- Final chunk of two base64 symbols yielding one byte.  The decoder
rejects non-zero trailing bits in the last symbol (the crate's
`decode_allow_trailing_bits` is false for `base64::decode`). -/
def b64Final2 (c1 c2 : Nat) : Option (List Nat) :=
  match b64Val c1, b64Val c2 with
  | some s1, some s2 =>
    if s2 % 16 = 0 then some [s1 * 4 + s2 / 16] else none
  | _, _ => none

/-- Final chunk of three base64 symbols yielding two bytes, with the same
trailing-bit strictness. -/
def b64Final3 (c1 c2 c3 : Nat) : Option (List Nat) :=
  match b64Val c1, b64Val c2, b64Val c3 with
  | some s1, some s2, some s3 =>
    if s3 % 4 = 0 then some [s1 * 4 + s2 / 16, s2 % 16 * 16 + s3 / 4] else none
  | _, _, _ => none

/-- Models `base64::decode` (standard alphabet) on the bytes of the input:
four symbols yield three bytes; `=` padding (byte 61) may appear only as the
last one or two bytes of the input; an unpadded final chunk of two or three
symbols is accepted; a total length of 1 modulo 4 is invalid; non-zero
trailing bits in the last symbol are rejected. -/
def b64Decode : List Nat → Option (List Nat)
  | [] => some []
  | [_] => none
  | [c1, c2] => b64Final2 c1 c2
  | [c1, c2, c3] => b64Final3 c1 c2 c3
  | c1 :: c2 :: c3 :: c4 :: rest =>
    if c3 = 61 then
      if c4 = 61 ∧ rest = [] then b64Final2 c1 c2 else none
    else if c4 = 61 then
      if rest = [] then b64Final3 c1 c2 c3 else none
    else
      match b64Val c1, b64Val c2, b64Val c3, b64Val c4 with
      | some s1, some s2, some s3, some s4 =>
        match b64Decode rest with
        | some bs => some ([s1 * 4 + s2 / 16, s2 % 16 * 16 + s3 / 4, s3 % 4 * 64 + s4] ++ bs)
        | none => none
      | _, _, _, _ => none

/-- Mirrors `SecurityKey::from_base64`: decode, then `try_into` a 32-byte
array, any other decoded length being the wrong-length error. -/
def SecurityKey.from_base64 (s : List Char) : KResult :=
  match b64Decode (utf8Bytes s) with
  | none => .err .base64
  | some bytes => if bytes.length = 32 then .ok ⟨bytes⟩ else .err .wrongLength

/-- Mirrors `SecurityKey::from_string`: when the byte length is exactly 64
try hex first and return its success; otherwise (or when hex fails with an
error) try base64; when both fail return the generic error.  A panic inside
`from_hex` propagates. -/
def SecurityKey.from_string (s : List Char) : KResult :=
  let first :=
    if (utf8Bytes s).length = 64 then
      match SecurityKey.from_hex s with
      | .ok k => KResult.ok k
      | .panicked => KResult.panicked
      | .err _ => KResult.err .notSuitable
    else KResult.err .notSuitable
  match first with
  | .ok k => .ok k
  | .panicked => .panicked
  | .err _ =>
    match SecurityKey.from_base64 s with
    | .ok k => .ok k
    | _ => .err .notSuitable

/-- Byte values of the crate's own test key `TEST_KEY_BYTES`. -/
def testKeyBytes : List Nat :=
  [0xf0, 0xe1, 0xd2, 0xc3, 0xb4, 0xa5, 0x96, 0x87, 0x78, 0x69, 0x5a, 0x4b, 0x3c, 0x2d,
   0x1e, 0x0f, 0x0f, 0x1e, 0x2d, 0x3c, 0x4b, 0x5a, 0x69, 0x78, 0x87, 0x96, 0xa5, 0xb4,
   0xc3, 0xd2, 0xe1, 0xf0]

/-- The crate's test vector `TEST_KEY_BASE64`. -/
def testKeyBase64 : List Char := "8OHSw7Sllod4aVpLPC0eDw8eLTxLWml4h5altMPS4fA=".toList

/-- Mirrors `DeviceState::busy`: returns the reason, empty when free. -/
def DeviceState.busy (cur : List Char) : List Char := cur

/-- Mirrors `DeviceState::clear_busy`. -/
def DeviceState.clear_busy (_cur : List Char) : List Char := []

/-- Mirrors `DeviceState::set_busy`: if the guarded string is empty it is
set to `reason` and `Ok(())` is returned, otherwise the current content is
returned in `Err` and the state is unchanged.  The result is the new cell
content paired with `none` for `Ok` or `some r` for `Err(r)`. -/
def DeviceState.set_busy (cur reason : List Char) : List Char × Option (List Char) :=
  if cur.isEmpty then (reason, none) else (cur, some cur)

/-- Mirrors `BusyGuard::try_busy`: delegates to `set_busy`; `Ok` yields a
guard whose `Drop` impl calls `clear_busy`. -/
def BusyGuard.try_busy (cur reason : List Char) : List Char × Option (List Char) :=
  DeviceState.set_busy cur reason

/-- Errors reported by the persistence collaborator (`save_config` and
`remove_config` of `SifisHome`). -/
structure PersistErr where
  msg : List Char
deriving DecidableEq

/-- Mirrors `DeviceState::get_config`: a copy of the snapshot under the read
lock (lock poisoning is outside this model). -/
def DeviceState.get_config {α : Type} (mem : Option α) : Option α := mem

/-- Mirrors `DeviceState::set_config`, parameterised by the outcomes of the
external collaborators: `removeRes` is what `remove_config()` would report,
`saveRes c` what `save_config(c)` would report.  Under the write lock the
collaborator runs first; on its error the `?` operator returns early and the
in-memory snapshot `mem` is not assigned; on success the snapshot is swapped.
The third component records that the write lock is released on the taken
path (RAII drop on both early return and normal return). -/
def DeviceState.set_config {α : Type} (removeRes : Except PersistErr Unit)
    (saveRes : α → Except PersistErr Unit) (mem : Option α) (new : Option α) :
    Option α × Except PersistErr Unit × Bool :=
  match new with
  | none =>
    match removeRes with
    | .error e => (mem, .error e, true)
    | .ok _ => (none, .ok (), true)
  | some c =>
    match saveRes c with
    | .error e => (mem, .error e, true)
    | .ok _ => (some c, .ok (), true)

/-- Outcome of `ApiKey::from_request` in `api_common.rs`: the granted
`ApiKey`, or one of the rejection classifications, mirroring both the HTTP
status and the `ApiKeyError` variant with its description. -/
inductive AuthOutcome
  | success
  | badRequestMissing
  | badRequestInvalid
  | unauthorized
  | panicked
deriving DecidableEq

/-- Mirrors `ApiKey::from_request`: `header` is the value of the first
`x-api-key` header when present, `authKey` the provisioned
`device_info().authorization_key()`.  A missing header yields
`(BadRequest, InvalidKey("Missing x-api-key header."))`; an unparsable value
`(BadRequest, InvalidKey("Invalid API key"))`; a parsed but different key
`(Unauthorized, WrongKey(...))`; the provisioned key grants access. -/
def ApiKey.from_request (header : Option (List Char)) (authKey : SecurityKey) : AuthOutcome :=
  match header with
  | none => .badRequestMissing
  | some s =>
    match SecurityKey.from_string s with
    | .ok key => if authKey = key then .success else .unauthorized
    | .err _ => .badRequestInvalid
    | .panicked => .panicked

/-- Mirrors `u128::from_be_bytes`: the first byte is the most significant. -/
def beBytes (l : List Nat) : Nat := l.foldl (fun a b => a * 256 + b) 0

/-- The constant of `uuid &= 0xFFFFFFFF_FFFF_0FFF_3FFF_FFFFFFFFFFFF`. -/
def uuidMask : Nat := 0xFFFFFFFFFFFF0FFF3FFFFFFFFFFFFFFF

/-- The constant of `uuid |= 0x00000000_0000_7000_8000_000000000000`. -/
def uuidSetBits : Nat := 0x70008000000000000000

/-- Mirrors `SRNG::generate_uuid`: `t` is the millisecond timestamp obtained
from `get_unix_time_ms`, `rand` the ten random bytes filled into
`bytes[6..]`.  The timestamp is shifted into the top 48 bits (u128 shift,
truncating modulo `2 ^ 128`), or-ed with the big-endian value of the byte
array, then the version and variant bits are cleared and set. -/
def SRNG.generate_uuid (t : Nat) (rand : List Nat) : Nat :=
  let uuid0 := (t <<< 80) % 2 ^ 128
  let r := beBytes ([0, 0, 0, 0, 0, 0] ++ rand)
  let uuid1 := uuid0 ||| r
  let uuid2 := uuid1 &&& uuidMask
  uuid2 ||| uuidSetBits

/-- Reading of the spec sentence for `from_hex` success: consume the string
two characters at a time, each pair decoded as one byte with the
most-significant nibble first. -/
def specPairDecode : List Nat → List Nat
  | a :: b :: rest => (16 * (hexVal a).getD 0 + (hexVal b).getD 0) :: specPairDecode rest
  | _ => []

/-- Standard base64 alphabet in symbol order. -/
def b64Alphabet : List Char :=
  "ABCDEFGHIJKLMNOPQRSTUVWXYZabcdefghijklmnopqrstuvwxyz0123456789+/".toList

/-- Symbol character for a six-bit value. -/
def b64Chr (v : Nat) : Char := b64Alphabet.getD v 'A'

/-- The standard padded base64 encoding referred to by the spec round-trip
property (the repository itself only decodes): three input bytes become four
symbols, a final group of one or two bytes is padded with `=` to four. -/
def b64Encode : List Nat → List Char
  | [] => []
  | [b1] => [b64Chr (b1 / 4), b64Chr (b1 % 4 * 16), '=', '=']
  | [b1, b2] => [b64Chr (b1 / 4), b64Chr (b1 % 4 * 16 + b2 / 16), b64Chr (b2 % 16 * 4), '=']
  | b1 :: b2 :: b3 :: rest =>
    b64Chr (b1 / 4) :: b64Chr (b1 % 4 * 16 + b2 / 16) :: b64Chr (b2 % 16 * 4 + b3 / 64) ::
      b64Chr (b3 % 64) :: b64Encode rest

/-- Binary serialization of `impl Serialize for SecurityKey`
(`serializer.serialize_bytes(self.as_bytes())`): exactly the 32 raw bytes. -/
def SecurityKey.serializeBinary (k : SecurityKey) : List Nat := k.bytes

/-- Human-readable serialization of `impl Serialize for SecurityKey`
(`serializer.serialize_str(self.hex(false).as_str())`): lowercase hex. -/
def SecurityKey.serializeHuman (k : SecurityKey) : List Char := k.hex false

/-- Binary deserialization (`SecurityKeyBytesVisitor::visit_bytes`): accepts
exactly 32 bytes, else the wrong-length error. -/
def SecurityKey.deserializeBinary (v : List Nat) : KResult :=
  if v.length = 32 then .ok ⟨v⟩ else .err .wrongLength

/-- Human-readable deserialization (`SecurityKeyVisitor::visit_str`):
parses the string as hex. -/
def SecurityKey.deserializeHuman (s : List Char) : KResult :=
  SecurityKey.from_hex s

/-- A 64-character ASCII string alternating plus signs and zeros. -/
def plusZeroStr : List Char := (List.replicate 32 ['+', '0']).flatten

/-- A 62-character string of 64 UTF-8 bytes whose first character is
three bytes long. -/
def euroStr : List Char := '€' :: List.replicate 61 '0'

/-!
Evaluation checks and helper lemmas, followed by the claim theorems.
-/

example : SecurityKey.from_hex (hexRender false [0xf0, 0xe1]) = .err .wrongLength := by decide

example :
    SecurityKey.from_hex (hexRender false (List.replicate 32 0xab)) =
      .ok ⟨List.replicate 32 0xab⟩ := by decide

example :
    SecurityKey.from_hex
        (List.replicate 32 '+' ++ List.replicate 32 '0' |>.take 64) =
      .err .parseInt := by decide

example :
    SecurityKey.from_hex ((List.replicate 32 ['+', '0']).flatten) =
      .ok ⟨List.replicate 32 0⟩ := by decide

example :
    SecurityKey.from_hex ('€' :: List.replicate 61 '0') = .panicked := by decide

example : SecurityKey.from_base64 testKeyBase64 = .ok ⟨testKeyBytes⟩ := by decide

example : SecurityKey.from_string testKeyBase64 = .ok ⟨testKeyBytes⟩ := by decide

example : SecurityKey.from_string (hexRender false testKeyBytes) = .ok ⟨testKeyBytes⟩ := by decide

example :
    SecurityKey.from_string
        "8OHSw7Sllod4aVpLPC0eDw==".toList = .err .notSuitable := by decide

example : BusyGuard.try_busy [] ['a'] = (['a'], none) := by decide

example : BusyGuard.try_busy ['a'] ['b'] = (['a'], some ['a']) := by decide

example : BusyGuard.try_busy [] [] = ([], none) := by decide

example : BusyGuard.try_busy [] ['b'] = (['b'], none) := by decide

example :
    ApiKey.from_request (some (hexRender false testKeyBytes)) ⟨testKeyBytes⟩ =
      .success := by decide

example :
    ApiKey.from_request (some "short".toList) ⟨testKeyBytes⟩ =
      .badRequestInvalid := by decide

example :
    ApiKey.from_request (some (hexRender false (List.replicate 32 1))) ⟨testKeyBytes⟩ =
      .unauthorized := by decide

example : ApiKey.from_request none ⟨testKeyBytes⟩ = .badRequestMissing := by decide

example :
    SRNG.generate_uuid 0x015555555555 (List.replicate 10 0xFF) =
      0x0155555555557FFFBFFFFFFFFFFFFFFF := by decide

example :
    SRNG.generate_uuid 0x015555555555 (List.replicate 10 0) =
      0x01555555555570008000000000000000 := by decide

example : SRNG.generate_uuid 1 [1, 2, 3, 4, 5, 6, 7, 8, 9, 10] / 2 ^ 80 = 1 := by decide

example : b64Encode testKeyBytes = testKeyBase64 := by decide

theorem utf8EncodeChar_ascii {c : Char} (h : c.toNat < 128) :
    utf8EncodeChar c = [c.toNat] := by
  simp [utf8EncodeChar, h]

theorem utf8Bytes_ascii {s : List Char} (h : ∀ c ∈ s, c.toNat < 128) :
    utf8Bytes s = s.map Char.toNat := by
  induction s with
  | nil => rfl
  | cons c rest ih =>
    simp only [utf8Bytes, List.map_cons]
    rw [utf8EncodeChar_ascii (h c (by simp))]
    simp [ih fun x hx => h x (by simp [hx])]

theorem hexMap_lt {u : Bool} {i : Nat} (h : i < 16) : (hexMap u i).toNat < 128 := by
  have hall : ∀ i < 16, ∀ u : Bool, (hexMap u i).toNat < 128 := by decide
  exact hall i h u

theorem hexVal_hexMap {u : Bool} {i : Nat} (h : i < 16) :
    hexVal (hexMap u i).toNat = some i := by
  have hall : ∀ i < 16, ∀ u : Bool, hexVal (hexMap u i).toNat = some i := by decide
  exact hall i h u

theorem hexMap_ne_plus {u : Bool} {i : Nat} (h : i < 16) : (hexMap u i).toNat ≠ 43 := by
  have hall : ∀ i < 16, ∀ u : Bool, (hexMap u i).toNat ≠ 43 := by decide
  exact hall i h u

theorem hexRender_ascii {u : Bool} {bs : List Nat} (hb : ∀ b ∈ bs, b < 256) :
    ∀ c ∈ hexRender u bs, c.toNat < 128 := by
  induction bs with
  | nil => simp [hexRender]
  | cons b rest ih =>
    have hblt : b < 256 := hb b (by simp)
    intro c hc
    simp only [hexRender, List.mem_cons] at hc
    rcases hc with rfl | hc
    · exact hexMap_lt (by omega)
    rcases hc with rfl | hc
    · exact hexMap_lt (by omega)
    · exact ih (fun x hx => hb x (by simp [hx])) c hc

theorem hexRender_length (u : Bool) (bs : List Nat) :
    (hexRender u bs).length = 2 * bs.length := by
  induction bs with
  | nil => rfl
  | cons b rest ih => simp [hexRender, ih]; omega

theorem utf8Cont_ascii {b : Nat} (h : b < 128) : utf8Cont b = false := by
  simp [utf8Cont]; omega

theorem parsePairs_hexRender (u : Bool) (bs : List Nat) (hb : ∀ b ∈ bs, b < 256) :
    parsePairs ((hexRender u bs).map Char.toNat) = .ok bs := by
  induction bs with
  | nil => rfl
  | cons b rest ih =>
    have hblt : b < 256 := hb b (by simp)
    have hdiv : b / 16 < 16 := by omega
    have hmod : b % 16 < 16 := by omega
    have hrest : ∀ x ∈ rest, x < 256 := fun x hx => hb x (by simp [hx])
    have hbnd : boundaryAfter ((hexRender u rest).map Char.toNat) = true := by
      cases rest with
      | nil => rfl
      | cons r rs =>
        have : r < 256 := hrest r (by simp)
        simp only [hexRender, List.map_cons, boundaryAfter]
        rw [utf8Cont_ascii (hexMap_lt (by omega))]
        rfl
    simp only [hexRender, List.map_cons, parsePairs, hbnd, if_true]
    have hparse : u8FromStrRadix16 [(hexMap u (b / 16)).toNat, (hexMap u (b % 16)).toNat] =
        some b := by
      simp only [u8FromStrRadix16]
      rw [if_neg (hexMap_ne_plus hdiv)]
      simp only [u8HexDigits, hexVal_hexMap hdiv, hexVal_hexMap hmod]
      have h1 : 0 * 16 + b / 16 < 256 := by omega
      rw [if_pos h1]
      have h2 : (0 * 16 + b / 16) * 16 + b % 16 < 256 := by omega
      rw [if_pos h2]
      congr 1
      omega
    rw [hparse, ih hrest]

theorem hexVal_isSome_facts {x : Nat} (h : (hexVal x).isSome) : x < 128 ∧ x ≠ 43 := by
  unfold hexVal at h
  split_ifs at h with h1 h2 h3
  · exact ⟨by omega, by omega⟩
  · exact ⟨by omega, by omega⟩
  · exact ⟨by omega, by omega⟩
  · simp at h

theorem hexVal_lt {x v : Nat} (h : hexVal x = some v) : v < 16 := by
  unfold hexVal at h
  split_ifs at h with h1 h2 h3 <;> simp_all <;> omega

/-- Two-step list induction matching the pair-consuming loops. -/
theorem twoStepInduction {P : List Nat → Prop} (grp0 : P []) (grp1 : ∀ a, P [a])
    (grp2 : ∀ a b rest, P rest → P (a :: b :: rest)) : ∀ bs, P bs
  | [] => grp0
  | [a] => grp1 a
  | a :: b :: rest => grp2 a b rest (twoStepInduction grp0 grp1 grp2 rest)

theorem parsePairs_ok_of_hex (bs : List Nat) :
    bs.length % 2 = 0 → (∀ x ∈ bs, (hexVal x).isSome) →
    parsePairs bs = .ok (specPairDecode bs) := by
  induction bs using twoStepInduction with
  | grp0 => intro _ _; rfl
  | grp1 a => intro hlen _; simp at hlen
  | grp2 a b rest ih =>
    intro hlen hall
    obtain ⟨va, hva⟩ := Option.isSome_iff_exists.mp (hall a (by simp))
    obtain ⟨vb, hvb⟩ := Option.isSome_iff_exists.mp (hall b (by simp))
    have hva16 := hexVal_lt hva
    have hvb16 := hexVal_lt hvb
    have hane : a ≠ 43 := (hexVal_isSome_facts (hall a (by simp))).2
    have hbnd : boundaryAfter rest = true := by
      cases rest with
      | nil => rfl
      | cons r rs =>
        have hr := (hexVal_isSome_facts (hall r (by simp))).1
        simp [boundaryAfter, utf8Cont_ascii hr]
    have hrest : rest.length % 2 = 0 := by simp at hlen; omega
    have hallr : ∀ x ∈ rest, (hexVal x).isSome := fun x hx => hall x (by simp [hx])
    simp only [parsePairs, hbnd, if_true]
    have hparse : u8FromStrRadix16 [a, b] = some (16 * va + vb) := by
      simp only [u8FromStrRadix16]
      rw [if_neg hane]
      simp only [u8HexDigits, hva, hvb]
      rw [if_pos (by omega), if_pos (by omega)]
      congr 1
      omega
    rw [hparse, ih hrest hallr]
    simp only [specPairDecode, hva, hvb, Option.getD_some]

theorem parsePairs_err_of_bad (bs : List Nat) :
    bs.length % 2 = 0 → (∀ x ∈ bs, x < 128) → 43 ∉ bs →
    (∃ x ∈ bs, hexVal x = none) → parsePairs bs = .parseErr := by
  induction bs using twoStepInduction with
  | grp0 => intro _ _ _ hbad; simp at hbad
  | grp1 a => intro hlen _ _ _; simp at hlen
  | grp2 a b rest ih =>
    intro hlen hascii hplus hbad
    have hane : a ≠ 43 := by simp at hplus; tauto
    have hbnd : boundaryAfter rest = true := by
      cases rest with
      | nil => rfl
      | cons r rs =>
        have hr : r < 128 := hascii r (by simp)
        simp [boundaryAfter, utf8Cont_ascii hr]
    simp only [parsePairs, hbnd, if_true]
    cases hva : hexVal a with
    | none =>
      have : u8FromStrRadix16 [a, b] = none := by
        simp only [u8FromStrRadix16]
        rw [if_neg hane]
        simp [u8HexDigits, hva]
      rw [this]
    | some va =>
      cases hvb : hexVal b with
      | none =>
        have : u8FromStrRadix16 [a, b] = none := by
          simp only [u8FromStrRadix16]
          rw [if_neg hane]
          simp only [u8HexDigits, hva]
          rw [if_pos (by have := hexVal_lt hva; omega)]
          simp [u8HexDigits, hvb]
        rw [this]
      | some vb =>
        have hparse : u8FromStrRadix16 [a, b] = some (16 * va + vb) := by
          simp only [u8FromStrRadix16]
          rw [if_neg hane]
          simp only [u8HexDigits, hva, hvb]
          rw [if_pos (by have := hexVal_lt hva; omega),
            if_pos (by have := hexVal_lt hva; have := hexVal_lt hvb; omega)]
          congr 1
          omega
        rw [hparse]
        have hbadr : ∃ x ∈ rest, hexVal x = none := by
          rcases hbad with ⟨x, hx, hxn⟩
          simp only [List.mem_cons] at hx
          rcases hx with rfl | rfl | hx
          · rw [hva] at hxn; cases hxn
          · rw [hvb] at hxn; cases hxn
          · exact ⟨x, hx, hxn⟩
        rw [ih (by simp at hlen; omega) (fun x hx => hascii x (by simp [hx]))
          (by simp at hplus; tauto) hbadr]

theorem parsePairs_no_panic (bs : List Nat) :
    bs.length % 2 = 0 → (∀ x ∈ bs, x < 128) → parsePairs bs ≠ .panicked := by
  induction bs using twoStepInduction with
  | grp0 => intro _ _; simp [parsePairs]
  | grp1 a => intro hlen _; simp at hlen
  | grp2 a b rest ih =>
    intro hlen hascii
    have hbnd : boundaryAfter rest = true := by
      cases rest with
      | nil => rfl
      | cons r rs =>
        have hr : r < 128 := hascii r (by simp)
        simp [boundaryAfter, utf8Cont_ascii hr]
    simp only [parsePairs, hbnd, if_true]
    cases hp : u8FromStrRadix16 [a, b] with
    | none => simp
    | some v =>
      have ihr := ih (by simp at hlen; omega) (fun x hx => hascii x (by simp [hx]))
      cases hr : parsePairs rest with
      | ok vs => simp
      | parseErr => simp
      | panicked => exact absurd hr ihr

theorem from_hex_hexRender {u : Bool} {bs : List Nat} (h32 : bs.length = 32)
    (hb : ∀ b ∈ bs, b < 256) : SecurityKey.from_hex (hexRender u bs) = .ok ⟨bs⟩ := by
  unfold SecurityKey.from_hex
  rw [utf8Bytes_ascii (hexRender_ascii hb)]
  simp [List.length_map, hexRender_length, h32, parsePairs_hexRender u bs hb]

theorem b64Chr_lt {v : Nat} (h : v < 64) : (b64Chr v).toNat < 128 := by
  have hall : ∀ v < 64, (b64Chr v).toNat < 128 := by decide
  exact hall v h

theorem b64Val_b64Chr {v : Nat} (h : v < 64) : b64Val (b64Chr v).toNat = some v := by
  have hall : ∀ v < 64, b64Val (b64Chr v).toNat = some v := by decide
  exact hall v h

theorem b64Chr_ne_pad {v : Nat} (h : v < 64) : (b64Chr v).toNat ≠ 61 := by
  have hall : ∀ v < 64, (b64Chr v).toNat ≠ 61 := by decide
  exact hall v h

/-- Three-step list induction matching the base64 grouping. -/
theorem threeStepInduction {P : List Nat → Prop} (g0 : P []) (g1 : ∀ a, P [a])
    (g2 : ∀ a b, P [a, b]) (g3 : ∀ a b c rest, P rest → P (a :: b :: c :: rest)) :
    ∀ bs, P bs
  | [] => g0
  | [a] => g1 a
  | [a, b] => g2 a b
  | a :: b :: c :: rest => g3 a b c rest (threeStepInduction g0 g1 g2 g3 rest)

theorem b64Decode_b64Encode (bs : List Nat) :
    (∀ x ∈ bs, x < 256) → b64Decode ((b64Encode bs).map Char.toNat) = some bs := by
  induction bs using threeStepInduction with
  | g0 => intro _; rfl
  | g1 b1 =>
    intro hb
    have h1 : b1 < 256 := hb b1 (by simp)
    simp only [b64Encode, List.map_cons, List.map_nil, b64Decode]
    have hpad : ('=').toNat = 61 := rfl
    simp only [hpad]
    simp only [and_self, if_true]
    simp only [b64Final2, b64Val_b64Chr (show b1 / 4 < 64 by omega),
      b64Val_b64Chr (show b1 % 4 * 16 < 64 by omega)]
    rw [if_pos (show b1 % 4 * 16 % 16 = 0 by omega)]
    have e1 : b1 / 4 * 4 + b1 % 4 * 16 / 16 = b1 := by omega
    rw [e1]
  | g2 b1 b2 =>
    intro hb
    have h1 : b1 < 256 := hb b1 (by simp)
    have h2 : b2 < 256 := hb b2 (by simp)
    simp only [b64Encode, List.map_cons, List.map_nil, b64Decode]
    have hpad : ('=').toNat = 61 := rfl
    simp only [hpad]
    rw [if_neg (b64Chr_ne_pad (show b2 % 16 * 4 < 64 by omega))]
    simp only [if_true]
    simp only [b64Final3, b64Val_b64Chr (show b1 / 4 < 64 by omega),
      b64Val_b64Chr (show b1 % 4 * 16 + b2 / 16 < 64 by omega),
      b64Val_b64Chr (show b2 % 16 * 4 < 64 by omega)]
    rw [if_pos (show b2 % 16 * 4 % 4 = 0 by omega)]
    have e1 : b1 / 4 * 4 + (b1 % 4 * 16 + b2 / 16) / 16 = b1 := by omega
    have e2 : (b1 % 4 * 16 + b2 / 16) % 16 * 16 + b2 % 16 * 4 / 4 = b2 := by omega
    rw [e1, e2]
  | g3 b1 b2 b3 rest ih =>
    intro hb
    have h1 : b1 < 256 := hb b1 (by simp)
    have h2 : b2 < 256 := hb b2 (by simp)
    have h3 : b3 < 256 := hb b3 (by simp)
    have hrest : ∀ x ∈ rest, x < 256 := fun x hx => hb x (by simp [hx])
    simp only [b64Encode, List.map_cons, b64Decode]
    rw [if_neg (b64Chr_ne_pad (show b2 % 16 * 4 + b3 / 64 < 64 by omega))]
    rw [if_neg (b64Chr_ne_pad (show b3 % 64 < 64 by omega))]
    simp only [b64Val_b64Chr (show b1 / 4 < 64 by omega),
      b64Val_b64Chr (show b1 % 4 * 16 + b2 / 16 < 64 by omega),
      b64Val_b64Chr (show b2 % 16 * 4 + b3 / 64 < 64 by omega),
      b64Val_b64Chr (show b3 % 64 < 64 by omega)]
    rw [ih hrest]
    have e1 : b1 / 4 * 4 + (b1 % 4 * 16 + b2 / 16) / 16 = b1 := by omega
    have e2 : (b1 % 4 * 16 + b2 / 16) % 16 * 16 + (b2 % 16 * 4 + b3 / 64) / 4 = b2 := by omega
    have e3 : (b2 % 16 * 4 + b3 / 64) % 4 * 64 + b3 % 64 = b3 := by omega
    rw [e1, e2, e3]
    simp

theorem b64Encode_ascii {bs : List Nat} (hb : ∀ x ∈ bs, x < 256) :
    ∀ c ∈ b64Encode bs, c.toNat < 128 := by
  induction bs using threeStepInduction with
  | g0 => simp [b64Encode]
  | g1 b1 =>
    have h1 : b1 < 256 := hb b1 (by simp)
    intro c hc
    simp only [b64Encode, List.mem_cons, List.not_mem_nil, or_false] at hc
    rcases hc with rfl | rfl | rfl | rfl
    · exact b64Chr_lt (by omega)
    · exact b64Chr_lt (by omega)
    · decide
    · decide
  | g2 b1 b2 =>
    have h1 : b1 < 256 := hb b1 (by simp)
    have h2 : b2 < 256 := hb b2 (by simp)
    intro c hc
    simp only [b64Encode, List.mem_cons, List.not_mem_nil, or_false] at hc
    rcases hc with rfl | rfl | rfl | rfl
    · exact b64Chr_lt (by omega)
    · exact b64Chr_lt (by omega)
    · exact b64Chr_lt (by omega)
    · decide
  | g3 b1 b2 b3 rest ih =>
    have h1 : b1 < 256 := hb b1 (by simp)
    have h2 : b2 < 256 := hb b2 (by simp)
    have h3 : b3 < 256 := hb b3 (by simp)
    have hrest : ∀ x ∈ rest, x < 256 := fun x hx => hb x (by simp [hx])
    intro c hc
    simp only [b64Encode, List.mem_cons] at hc
    rcases hc with rfl | rfl | rfl | rfl | hc
    · exact b64Chr_lt (by omega)
    · exact b64Chr_lt (by omega)
    · exact b64Chr_lt (by omega)
    · exact b64Chr_lt (by omega)
    · exact ih hrest c hc

theorem from_base64_b64Encode {bs : List Nat} (h32 : bs.length = 32)
    (hb : ∀ x ∈ bs, x < 256) : SecurityKey.from_base64 (b64Encode bs) = .ok ⟨bs⟩ := by
  unfold SecurityKey.from_base64
  rw [utf8Bytes_ascii (b64Encode_ascii hb), b64Decode_b64Encode bs hb]
  simp [h32]

theorem and_split {n : Nat} (a c : Nat) {b d : Nat} (hb : b < 2 ^ n) (hd : d < 2 ^ n) :
    (2 ^ n * a + b) &&& (2 ^ n * c + d) = 2 ^ n * (a &&& c) + (b &&& d) := by
  apply Nat.eq_of_testBit_eq
  intro j
  have h1 : b &&& d < 2 ^ n := Nat.and_lt_two_pow _ hd
  rw [Nat.testBit_mul_pow_two_add _ h1 j, Nat.testBit_and,
    Nat.testBit_mul_pow_two_add _ hb j, Nat.testBit_mul_pow_two_add _ hd j]
  by_cases hj : j < n
  · simp [hj]
  · simp [hj]

theorem or_split {n : Nat} (a c : Nat) {b d : Nat} (hb : b < 2 ^ n) (hd : d < 2 ^ n) :
    (2 ^ n * a + b) ||| (2 ^ n * c + d) = 2 ^ n * (a ||| c) + (b ||| d) := by
  apply Nat.eq_of_testBit_eq
  intro j
  have h1 : b ||| d < 2 ^ n := Nat.or_lt_two_pow hb hd
  rw [Nat.testBit_mul_pow_two_add _ h1 j, Nat.testBit_or,
    Nat.testBit_mul_pow_two_add _ hb j, Nat.testBit_mul_pow_two_add _ hd j]
  by_cases hj : j < n
  · simp [hj]
  · simp [hj]

theorem beBytesAux_lt (l : List Nat) (hb : ∀ x ∈ l, x < 256) :
    ∀ acc, List.foldl (fun a b => a * 256 + b) acc l < (acc + 1) * 256 ^ l.length := by
  induction l with
  | nil => intro acc; simp
  | cons x xs ih =>
    intro acc
    simp only [List.foldl_cons, List.length_cons]
    have hx : x < 256 := hb x (by simp)
    calc List.foldl (fun a b => a * 256 + b) (acc * 256 + x) xs
        < (acc * 256 + x + 1) * 256 ^ xs.length :=
          ih (fun y hy => hb y (by simp [hy])) (acc * 256 + x)
      _ ≤ (acc + 1) * 256 * 256 ^ xs.length :=
          Nat.mul_le_mul_right _ (by omega)
      _ = (acc + 1) * 256 ^ (xs.length + 1) := by ring

theorem beBytes_lt {l : List Nat} (hlen : l.length = 10) (hb : ∀ x ∈ l, x < 256) :
    beBytes l < 2 ^ 80 := by
  have := beBytesAux_lt l hb 0
  rw [hlen] at this
  simpa [beBytes] using this

set_option maxHeartbeats 2000000 in
theorem generate_uuid_closed {t : Nat} (rand : List Nat) (ht : t < 2 ^ 48)
    (hlen : rand.length = 10) (hb : ∀ x ∈ rand, x < 256) :
    SRNG.generate_uuid t rand =
      t * 2 ^ 80 + 7 * 2 ^ 76 + beBytes rand / 2 ^ 64 % 2 ^ 12 * 2 ^ 64 +
        2 * 2 ^ 62 + beBytes rand % 2 ^ 62 := by
  have hR : beBytes rand < 2 ^ 80 := beBytes_lt hlen hb
  set R := beBytes rand with hRdef
  set ra := R / 2 ^ 64 % 2 ^ 12 with hra
  set rb := R % 2 ^ 62 with hrb
  have hra12 : ra < 2 ^ 12 := Nat.mod_lt _ (by norm_num)
  have hrb62 : rb < 2 ^ 62 := Nat.mod_lt _ (by norm_num)
  have hpre : beBytes ([0, 0, 0, 0, 0, 0] ++ rand) = R := by
    simp only [beBytes, List.cons_append, List.nil_append, List.foldl_cons]
    norm_num
    rw [hRdef]
    rfl
  have hshift : (t <<< 80) % 2 ^ 128 = 2 ^ 80 * t := by
    rw [Nat.shiftLeft_eq, Nat.mod_eq_of_lt, Nat.mul_comm]
    calc t * 2 ^ 80 ≤ (2 ^ 48 - 1) * 2 ^ 80 := Nat.mul_le_mul_right _ (by omega)
      _ < 2 ^ 128 := by norm_num
  have hor1 : 2 ^ 80 * t ||| R = 2 ^ 80 * t + R := (Nat.mul_add_lt_is_or hR t).symm
  have hmask : (2 ^ 80 * t + R) &&& uuidMask = 2 ^ 80 * t + (2 ^ 64 * ra + rb) := by
    have hm1 : uuidMask = 2 ^ 80 * (2 ^ 48 - 1) + 0x0FFF3FFFFFFFFFFFFFFF := by
      norm_num [uuidMask]
    have hm80 : (0x0FFF3FFFFFFFFFFFFFFF : Nat) < 2 ^ 80 := by norm_num
    rw [hm1, and_split t (2 ^ 48 - 1) hR hm80]
    have ht48 : t &&& 2 ^ 48 - 1 = t := by
      rw [Nat.and_pow_two_sub_one_eq_mod, Nat.mod_eq_of_lt ht]
    rw [ht48]
    have hsub : R &&& 0x0FFF3FFFFFFFFFFFFFFF = 2 ^ 64 * ra + rb := by
      have hsplitR : R = 2 ^ 76 * (R / 2 ^ 76) + R % 2 ^ 76 := (Nat.div_add_mod R (2 ^ 76)).symm
      have hm2 : (0x0FFF3FFFFFFFFFFFFFFF : Nat) = 2 ^ 76 * 0 + 0x0FFF3FFFFFFFFFFFFFFF := by
        norm_num
      have hmod76 : R % 2 ^ 76 < 2 ^ 76 := Nat.mod_lt _ (by norm_num)
      calc R &&& 0x0FFF3FFFFFFFFFFFFFFF
          = (2 ^ 76 * (R / 2 ^ 76) + R % 2 ^ 76) &&& (2 ^ 76 * 0 + 0x0FFF3FFFFFFFFFFFFFFF) := by
            rw [← hsplitR, ← hm2]
        _ = 2 ^ 76 * (R / 2 ^ 76 &&& 0) + (R % 2 ^ 76 &&& 0x0FFF3FFFFFFFFFFFFFFF) := by
            exact and_split _ _ hmod76 (by norm_num)
        _ = R % 2 ^ 76 &&& 0x0FFF3FFFFFFFFFFFFFFF := by
            simp [Nat.and_zero]
        _ = (2 ^ 64 * (R % 2 ^ 76 / 2 ^ 64) + R % 2 ^ 76 % 2 ^ 64) &&&
              (2 ^ 64 * (2 ^ 12 - 1) + (2 ^ 62 - 1)) := by
            rw [Nat.div_add_mod]
            norm_num
        _ = 2 ^ 64 * (R % 2 ^ 76 / 2 ^ 64 &&& 2 ^ 12 - 1) + (R % 2 ^ 76 % 2 ^ 64 &&& 2 ^ 62 - 1) := by
            exact and_split _ _ (Nat.mod_lt _ (by norm_num)) (by norm_num)
        _ = 2 ^ 64 * ra + rb := by
            rw [Nat.and_pow_two_sub_one_eq_mod, Nat.and_pow_two_sub_one_eq_mod]
            have e1 : R % 2 ^ 76 / 2 ^ 64 = R / 2 ^ 64 % 2 ^ 12 := by
              rw [show (2 : Nat) ^ 76 = 2 ^ 64 * 2 ^ 12 by norm_num]
              exact Nat.mod_mul_right_div_self R (2 ^ 64) (2 ^ 12)
            have e2 : R % 2 ^ 76 % 2 ^ 64 % 2 ^ 62 = R % 2 ^ 62 := by
              rw [Nat.mod_mod_of_dvd R (by norm_num : (2:Nat) ^ 64 ∣ 2 ^ 76),
                Nat.mod_mod_of_dvd R (by norm_num : (2:Nat) ^ 62 ∣ 2 ^ 64)]
            have hd64 : R % 2 ^ 76 / 2 ^ 64 < 2 ^ 12 := by
              rw [e1]; exact Nat.mod_lt _ (by norm_num)
            rw [Nat.mod_eq_of_lt hd64, e1, e2]
    rw [hsub]
  have hlow80 : 2 ^ 64 * ra + rb < 2 ^ 80 := by
    calc 2 ^ 64 * ra + rb ≤ 2 ^ 64 * (2 ^ 12 - 1) + (2 ^ 62 - 1) := by
          have := Nat.mul_le_mul_left (2 ^ 64) (by omega : ra ≤ 2 ^ 12 - 1)
          omega
      _ < 2 ^ 80 := by norm_num
  have hlow76 : 2 ^ 64 * ra + rb < 2 ^ 76 := by
    calc 2 ^ 64 * ra + rb ≤ 2 ^ 64 * (2 ^ 12 - 1) + (2 ^ 62 - 1) := by
          have := Nat.mul_le_mul_left (2 ^ 64) (by omega : ra ≤ 2 ^ 12 - 1)
          omega
      _ < 2 ^ 76 := by norm_num
  have hor2 : 2 ^ 80 * t + (2 ^ 64 * ra + rb) ||| uuidSetBits =
      2 ^ 80 * t + (2 ^ 76 * 7 + (2 ^ 62 * (4 * ra + 2) + rb)) := by
    have hs1 : uuidSetBits = 2 ^ 80 * 0 + 0x70008000000000000000 := by
      norm_num [uuidSetBits]
    rw [hs1, or_split t 0 hlow80 (by norm_num)]
    rw [Nat.or_zero]
    have e0 : 2 ^ 64 * ra + rb = 2 ^ 76 * 0 + (2 ^ 62 * (4 * ra) + rb) := by ring
    have eN : (0x70008000000000000000 : Nat) = 2 ^ 76 * 7 + (2 ^ 62 * 2 + 0) := by norm_num
    have hblt : 2 ^ 62 * (4 * ra) + rb < 2 ^ 76 := by
      have : 2 ^ 62 * (4 * ra) + rb = 2 ^ 64 * ra + rb := by ring
      rw [this]
      exact hlow76
    have hsub2 : (2 ^ 64 * ra + rb) ||| 0x70008000000000000000 =
        2 ^ 76 * 7 + (2 ^ 62 * (4 * ra + 2) + rb) := by
      rw [e0, eN, or_split 0 7 hblt (by norm_num)]
      have e1 : (0 : Nat) ||| 7 = 7 := by decide
      rw [e1, or_split (4 * ra) 2 hrb62 (by norm_num), Nat.or_zero]
      have e2 : 4 * ra ||| 2 = 4 * ra + 2 := by
        rw [show (4 : Nat) * ra = 2 ^ 2 * ra by ring]
        exact (Nat.mul_add_lt_is_or (by norm_num) ra).symm
      rw [e2]
    rw [hsub2]
  have hgoal : SRNG.generate_uuid t rand =
      (((t <<< 80) % 2 ^ 128 ||| beBytes ([0, 0, 0, 0, 0, 0] ++ rand)) &&& uuidMask) |||
        uuidSetBits := rfl
  rw [hgoal, hpre, hshift, hor1, hmask, hor2]
  ring

theorem from_hex_no_panic_ascii {s : List Char} (hascii : ∀ c ∈ s, c.toNat < 128) :
    SecurityKey.from_hex s ≠ .panicked := by
  unfold SecurityKey.from_hex
  rw [utf8Bytes_ascii hascii]
  by_cases h64 : (s.map Char.toNat).length = 64
  · have heven : (s.map Char.toNat).length % 2 = 0 := by rw [h64]
    have hba : ∀ x ∈ s.map Char.toNat, x < 128 := by
      intro x hx
      rcases List.mem_map.mp hx with ⟨c, hc, rfl⟩
      exact hascii c hc
    have hnp := parsePairs_no_panic _ heven hba
    simp only [h64]
    norm_num
    cases hp : parsePairs (s.map Char.toNat) with
    | ok vs => simp
    | parseErr => simp
    | panicked => exact absurd hp hnp
  · simp only [List.length_map] at h64 ⊢
    simp [h64]

/-- C1: for every incoming request, a missing `x-api-key` header is rejected
with the bad-request / missing-header classification; a present header whose
value `SecurityKey::from_string` rejects is classified bad-request / invalid
key format; a parsed key that is not byte-equal to the provisioned
authorization key is rejected as unauthorized; the provisioned key itself is
granted access; and the format-error and wrong-credential classifications
are distinct outcomes. -/
theorem c1_from_request_classification (hdr : Option (List Char)) (authKey : SecurityKey) :
    (hdr = none → ApiKey.from_request hdr authKey = .badRequestMissing) ∧
    (∀ s e, hdr = some s → SecurityKey.from_string s = .err e →
      ApiKey.from_request hdr authKey = .badRequestInvalid) ∧
    (∀ s k, hdr = some s → SecurityKey.from_string s = .ok k → k ≠ authKey →
      ApiKey.from_request hdr authKey = .unauthorized) ∧
    (∀ s, hdr = some s → SecurityKey.from_string s = .ok authKey →
      ApiKey.from_request hdr authKey = .success) ∧
    AuthOutcome.badRequestInvalid ≠ AuthOutcome.unauthorized := by
  refine ⟨?_, ?_, ?_, ?_, by simp⟩
  · rintro rfl; rfl
  · rintro s e rfl hse
    simp [ApiKey.from_request, hse]
  · rintro s k rfl hsk hne
    simp only [ApiKey.from_request, hsk]
    rw [if_neg fun h => hne h.symm]
  · rintro s rfl hs
    simp [ApiKey.from_request, hs]

/-- C1 witness at the repository's own test key: all four classifications
hit at concrete header values. -/
theorem c1_witness :
    ApiKey.from_request none ⟨testKeyBytes⟩ = .badRequestMissing ∧
    ApiKey.from_request (some "short".toList) ⟨testKeyBytes⟩ = .badRequestInvalid ∧
    ApiKey.from_request (some (hexRender false (List.replicate 32 1))) ⟨testKeyBytes⟩ =
      .unauthorized ∧
    ApiKey.from_request (some (hexRender false testKeyBytes)) ⟨testKeyBytes⟩ = .success :=
  ⟨(c1_from_request_classification none ⟨testKeyBytes⟩).1 rfl,
   (c1_from_request_classification _ ⟨testKeyBytes⟩).2.1 _ .notSuitable rfl (by decide),
   (c1_from_request_classification _ ⟨testKeyBytes⟩).2.2.1 _ ⟨List.replicate 32 1⟩ rfl
     (by decide) (by decide),
   (c1_from_request_classification _ ⟨testKeyBytes⟩).2.2.2.1 _ rfl (by decide)⟩

/-- C2 counterexample: with the empty string as the first reason, the first
`try_busy` succeeds (so its guard is alive), yet a second `try_busy` also
succeeds instead of failing with the first reason — the claim fails for
`reason1 = ""`. -/
theorem c2_counterexample :
    BusyGuard.try_busy [] [] = ([], none) ∧
    BusyGuard.try_busy (BusyGuard.try_busy [] []).1 ['x'] = (['x'], none) := by decide

/-- C2 (amended): for a non-empty first reason, a first `try_busy` on a free
state succeeds; while its guard is alive a second `try_busy` with any reason
fails, returns exactly the first reason, and leaves the state unchanged; and
after the guard is dropped (`clear_busy`), a `try_busy` with any new reason
succeeds immediately. -/
theorem c2_single_flight (r1 r2 : List Char) (h1 : r1 ≠ []) :
    BusyGuard.try_busy [] r1 = (r1, none) ∧
    BusyGuard.try_busy (BusyGuard.try_busy [] r1).1 r2 = (r1, some r1) ∧
    DeviceState.clear_busy (BusyGuard.try_busy [] r1).1 = [] ∧
    BusyGuard.try_busy (DeviceState.clear_busy (BusyGuard.try_busy [] r1).1) r2 =
      (r2, none) := by
  have h1e : r1.isEmpty = false := by cases r1 <;> simp_all
  refine ⟨rfl, ?_, rfl, rfl⟩
  simp [BusyGuard.try_busy, DeviceState.set_busy, h1e]

/-- C2 witness at concrete reasons. -/
theorem c2_witness :
    BusyGuard.try_busy [] ['a'] = (['a'], none) ∧
    BusyGuard.try_busy (BusyGuard.try_busy [] ['a']).1 ['b'] = (['a'], some ['a']) ∧
    DeviceState.clear_busy (BusyGuard.try_busy [] ['a']).1 = [] ∧
    BusyGuard.try_busy (DeviceState.clear_busy (BusyGuard.try_busy [] ['a']).1) ['b'] =
      (['b'], none) :=
  c2_single_flight ['a'] ['b'] (by decide)

/-- C10: the free state and the empty reason are the same value: acquiring
with the empty reason on a free state returns `Ok` (a live guard), yet
`busy()` still reports the empty string and any further acquisition also
succeeds while that guard is alive; the at-most-one-guard property does hold
for every acquisition on a state busy with a non-empty reason. -/
theorem c10_empty_reason_hole :
    BusyGuard.try_busy [] [] = ([], none) ∧
    DeviceState.busy (BusyGuard.try_busy [] []).1 = [] ∧
    (∀ r, (BusyGuard.try_busy (BusyGuard.try_busy [] []).1 r).2 = none) ∧
    (∀ cur r, cur ≠ [] → BusyGuard.try_busy cur r = (cur, some cur)) := by
  refine ⟨rfl, rfl, fun r => rfl, fun cur r hc => ?_⟩
  have hce : cur.isEmpty = false := by cases cur <;> simp_all
  simp [BusyGuard.try_busy, DeviceState.set_busy, hce]

/-- C10 witness: the empty-reason hole at concrete values, and the non-empty
branch at a concrete busy state. -/
theorem c10_witness :
    (∀ r, (BusyGuard.try_busy (BusyGuard.try_busy [] []).1 r).2 = none) ∧
    BusyGuard.try_busy ['a'] ['b'] = (['a'], some ['a']) :=
  ⟨c10_empty_reason_hole.2.2.1, c10_empty_reason_hole.2.2.2 ['a'] ['b'] (by decide)⟩

/-- C6: for every device state and every new config value (present or
absent), if the persistence collaborator reports failure during
`set_config`, the in-memory snapshot is not updated — `get_config` after the
failed call returns the value it returned before — and the write lock is
still released; when persistence succeeds the snapshot is swapped to the new
value. -/
theorem c6_set_config_atomic {α : Type} (removeRes : Except PersistErr Unit)
    (saveRes : α → Except PersistErr Unit) (mem new : Option α) :
    (∀ e, (DeviceState.set_config removeRes saveRes mem new).2.1 = .error e →
      DeviceState.get_config (DeviceState.set_config removeRes saveRes mem new).1 =
        DeviceState.get_config mem ∧
      (DeviceState.set_config removeRes saveRes mem new).2.2 = true) ∧
    ((DeviceState.set_config removeRes saveRes mem new).2.1 = .ok () →
      (DeviceState.set_config removeRes saveRes mem new).1 = new ∧
      (DeviceState.set_config removeRes saveRes mem new).2.2 = true) := by
  cases new with
  | none =>
    cases removeRes with
    | error e => simp [DeviceState.set_config, DeviceState.get_config]
    | ok u => simp [DeviceState.set_config, DeviceState.get_config]
  | some c =>
    cases hs : saveRes c with
    | error e => simp [DeviceState.set_config, DeviceState.get_config, hs]
    | ok u => simp [DeviceState.set_config, DeviceState.get_config, hs]

/-- C6 witness: a failing save keeps the previous snapshot, a succeeding
save swaps it, at concrete values. -/
theorem c6_witness :
    DeviceState.get_config
        (DeviceState.set_config (α := Nat) (.error ⟨['d']⟩) (fun _ => .error ⟨['s']⟩)
          (some 1) (some 2)).1 = DeviceState.get_config (some 1) ∧
    (DeviceState.set_config (α := Nat) (.error ⟨['d']⟩) (fun _ => .error ⟨['s']⟩)
        (some 1) (some 2)).2.2 = true ∧
    (DeviceState.set_config (α := Nat) (.ok ()) (fun _ => .ok ())
        (some 1) (some 2)).1 = some 2 :=
  ⟨((c6_set_config_atomic (α := Nat) (.error ⟨['d']⟩) (fun _ => .error ⟨['s']⟩)
      (some 1) (some 2)).1 ⟨['s']⟩ rfl).1,
   ((c6_set_config_atomic (α := Nat) (.error ⟨['d']⟩) (fun _ => .error ⟨['s']⟩)
      (some 1) (some 2)).1 ⟨['s']⟩ rfl).2,
   ((c6_set_config_atomic (α := Nat) (.ok ()) (fun _ => .ok ())
      (some 1) (some 2)).2 rfl).1⟩

theorem generate_uuid_div80 {t : Nat} (rand : List Nat) (ht : t < 2 ^ 48)
    (hlen : rand.length = 10) (hb : ∀ x ∈ rand, x < 256) :
    SRNG.generate_uuid t rand / 2 ^ 80 = t := by
  rw [generate_uuid_closed rand ht hlen hb]
  have hra : beBytes rand / 2 ^ 64 % 2 ^ 12 < 2 ^ 12 := Nat.mod_lt _ (by norm_num)
  have hrb : beBytes rand % 2 ^ 62 < 2 ^ 62 := Nat.mod_lt _ (by norm_num)
  set ra := beBytes rand / 2 ^ 64 % 2 ^ 12
  set rb := beBytes rand % 2 ^ 62
  have e80 : (2 : Nat) ^ 80 = 1208925819614629174706176 := by norm_num
  have e76 : (2 : Nat) ^ 76 = 75557863725914323419136 := by norm_num
  have e64 : (2 : Nat) ^ 64 = 18446744073709551616 := by norm_num
  have e62 : (2 : Nat) ^ 62 = 4611686018427387904 := by norm_num
  have e12 : (2 : Nat) ^ 12 = 4096 := by norm_num
  rw [e80, e76, e64, e62] at *
  rw [e12] at hra
  omega

/-- C3: for every timestamp below `2 ^ 48` and every choice of the ten
random bytes, the generated 128-bit value has its most-significant 48 bits
equal to the timestamp, the version nibble (bits 76–79) equal to 7, the
variant bits (bits 62–63, the top two bits of byte 8) equal to `0b10`, and
all remaining bits equal to the corresponding bits of the random fill,
following the shift / or / mask-and-set construction. -/
theorem c3_uuid_bit_layout (t : Nat) (rand : List Nat) (ht : t < 2 ^ 48)
    (hlen : rand.length = 10) (hb : ∀ x ∈ rand, x < 256) :
    SRNG.generate_uuid t rand / 2 ^ 80 = t ∧
    SRNG.generate_uuid t rand / 2 ^ 76 % 2 ^ 4 = 7 ∧
    SRNG.generate_uuid t rand / 2 ^ 62 % 2 ^ 2 = 2 ∧
    SRNG.generate_uuid t rand / 2 ^ 64 % 2 ^ 12 = beBytes rand / 2 ^ 64 % 2 ^ 12 ∧
    SRNG.generate_uuid t rand % 2 ^ 62 = beBytes rand % 2 ^ 62 := by
  have hdiv := generate_uuid_div80 rand ht hlen hb
  rw [generate_uuid_closed rand ht hlen hb] at hdiv ⊢
  have hra : beBytes rand / 2 ^ 64 % 2 ^ 12 < 2 ^ 12 := Nat.mod_lt _ (by norm_num)
  have hrb : beBytes rand % 2 ^ 62 < 2 ^ 62 := Nat.mod_lt _ (by norm_num)
  set ra := beBytes rand / 2 ^ 64 % 2 ^ 12
  set rb := beBytes rand % 2 ^ 62
  have e80 : (2 : Nat) ^ 80 = 1208925819614629174706176 := by norm_num
  have e76 : (2 : Nat) ^ 76 = 75557863725914323419136 := by norm_num
  have e64 : (2 : Nat) ^ 64 = 18446744073709551616 := by norm_num
  have e62 : (2 : Nat) ^ 62 = 4611686018427387904 := by norm_num
  have e12 : (2 : Nat) ^ 12 = 4096 := by norm_num
  have e4 : (2 : Nat) ^ 4 = 16 := by norm_num
  have e2 : (2 : Nat) ^ 2 = 4 := by norm_num
  rw [e80, e76, e64, e62, e12, e4, e2] at *
  refine ⟨by omega, by omega, by omega, by omega, by omega⟩

/-- C3 witness at a concrete timestamp and concrete random bytes. -/
theorem c3_witness :
    SRNG.generate_uuid 5 [1, 2, 3, 4, 5, 6, 7, 8, 9, 10] / 2 ^ 80 = 5 ∧
    SRNG.generate_uuid 5 [1, 2, 3, 4, 5, 6, 7, 8, 9, 10] / 2 ^ 76 % 2 ^ 4 = 7 ∧
    SRNG.generate_uuid 5 [1, 2, 3, 4, 5, 6, 7, 8, 9, 10] / 2 ^ 62 % 2 ^ 2 = 2 ∧
    SRNG.generate_uuid 5 [1, 2, 3, 4, 5, 6, 7, 8, 9, 10] / 2 ^ 64 % 2 ^ 12 =
      beBytes [1, 2, 3, 4, 5, 6, 7, 8, 9, 10] / 2 ^ 64 % 2 ^ 12 ∧
    SRNG.generate_uuid 5 [1, 2, 3, 4, 5, 6, 7, 8, 9, 10] % 2 ^ 62 =
      beBytes [1, 2, 3, 4, 5, 6, 7, 8, 9, 10] % 2 ^ 62 :=
  c3_uuid_bit_layout 5 [1, 2, 3, 4, 5, 6, 7, 8, 9, 10] (by norm_num) (by decide) (by decide)

/-- C9: the 48-bit timestamp field of a generated UUID (its value shifted
right by 80) is a monotone function of the clock input: for two mints with
clock values `t1 ≤ t2`, the second embedded timestamp is at least the
first. -/
theorem c9_timestamp_monotone (t1 t2 : Nat) (r1 r2 : List Nat)
    (h1 : t1 < 2 ^ 48) (h2 : t2 < 2 ^ 48) (hle : t1 ≤ t2)
    (hl1 : r1.length = 10) (hb1 : ∀ x ∈ r1, x < 256)
    (hl2 : r2.length = 10) (hb2 : ∀ x ∈ r2, x < 256) :
    SRNG.generate_uuid t1 r1 >>> 80 ≤ SRNG.generate_uuid t2 r2 >>> 80 := by
  rw [Nat.shiftRight_eq_div_pow, Nat.shiftRight_eq_div_pow,
    generate_uuid_div80 r1 h1 hl1 hb1, generate_uuid_div80 r2 h2 hl2 hb2]
  exact hle

/-- C9 witness at concrete clock values and random bytes. -/
theorem c9_witness :
    SRNG.generate_uuid 5 (List.replicate 10 255) >>> 80 ≤
      SRNG.generate_uuid 6 (List.replicate 10 0) >>> 80 :=
  c9_timestamp_monotone 5 6 (List.replicate 10 255) (List.replicate 10 0)
    (by norm_num) (by norm_num) (by norm_num) (by decide) (by decide) (by decide) (by decide)

/-- C7: for all 32-byte values, parsing the lowercase or uppercase hex
rendering returns the same key, decoding the standard padded base64 encoding
returns the same key, the hex rendering is always exactly 64 characters, and
each byte is rendered as two nibble lookups in order — the first byte gives
the first two characters. -/
theorem c7_round_trip (bs : List Nat) (h32 : bs.length = 32) (hb : ∀ x ∈ bs, x < 256) :
    SecurityKey.from_hex (SecurityKey.hex ⟨bs⟩ false) = .ok ⟨bs⟩ ∧
    SecurityKey.from_hex (SecurityKey.hex ⟨bs⟩ true) = .ok ⟨bs⟩ ∧
    SecurityKey.from_base64 (b64Encode bs) = .ok ⟨bs⟩ ∧
    (∀ u, (SecurityKey.hex ⟨bs⟩ u).length = 64) ∧
    (∀ u b rest, SecurityKey.hex ⟨b :: rest⟩ u =
      hexMap u (b / 16) :: hexMap u (b % 16) :: SecurityKey.hex ⟨rest⟩ u) :=
  ⟨from_hex_hexRender h32 hb, from_hex_hexRender h32 hb, from_base64_b64Encode h32 hb,
   fun u => by simp [SecurityKey.hex, hexRender_length, h32],
   fun u b rest => rfl⟩

/-- C7 witness at the repository's own test key bytes. -/
theorem c7_witness :
    SecurityKey.from_hex (SecurityKey.hex ⟨testKeyBytes⟩ false) = .ok ⟨testKeyBytes⟩ ∧
    SecurityKey.from_hex (SecurityKey.hex ⟨testKeyBytes⟩ true) = .ok ⟨testKeyBytes⟩ ∧
    SecurityKey.from_base64 (b64Encode testKeyBytes) = .ok ⟨testKeyBytes⟩ ∧
    (SecurityKey.hex ⟨testKeyBytes⟩ false).length = 64 :=
  ⟨(c7_round_trip testKeyBytes (by decide) (by decide)).1,
   (c7_round_trip testKeyBytes (by decide) (by decide)).2.1,
   (c7_round_trip testKeyBytes (by decide) (by decide)).2.2.1,
   (c7_round_trip testKeyBytes (by decide) (by decide)).2.2.2.1 false⟩

/-- C8: binary serialization writes exactly the 32 raw key bytes and
human-readable serialization writes the 64-character lowercase hex string;
binary deserialization rejects any length other than 32 with the
wrong-length error and human-readable deserialization parses hex, rejecting
any byte length other than 64; deserializing a serialized key in either
format yields an equal key. -/
theorem c8_serde_contract (k : SecurityKey) (hwf : k.wf) :
    SecurityKey.serializeBinary k = k.bytes ∧
    (SecurityKey.serializeBinary k).length = 32 ∧
    SecurityKey.serializeHuman k = SecurityKey.hex k false ∧
    (SecurityKey.serializeHuman k).length = 64 ∧
    (∀ v : List Nat, v.length ≠ 32 → SecurityKey.deserializeBinary v = .err .wrongLength) ∧
    SecurityKey.deserializeBinary (SecurityKey.serializeBinary k) = .ok k ∧
    (∀ s : List Char, (utf8Bytes s).length ≠ 64 →
      SecurityKey.deserializeHuman s = .err .wrongLength) ∧
    SecurityKey.deserializeHuman (SecurityKey.serializeHuman k) = .ok k := by
  obtain ⟨h32, hb⟩ := hwf
  refine ⟨rfl, by simp [SecurityKey.serializeBinary, h32], rfl,
    by simp [SecurityKey.serializeHuman, SecurityKey.hex, hexRender_length, h32],
    fun v hv => by simp [SecurityKey.deserializeBinary, hv],
    by simp [SecurityKey.deserializeBinary, SecurityKey.serializeBinary, h32],
    fun s hs => by simp [SecurityKey.deserializeHuman, SecurityKey.from_hex, hs],
    ?_⟩
  show SecurityKey.from_hex (hexRender false k.bytes) = .ok k
  rw [from_hex_hexRender h32 hb]

/-- C8 witness at the repository's own test key bytes. -/
theorem c8_witness :
    SecurityKey.serializeBinary ⟨testKeyBytes⟩ = testKeyBytes ∧
    (SecurityKey.serializeHuman ⟨testKeyBytes⟩).length = 64 ∧
    SecurityKey.deserializeBinary [0, 0, 0, 0] = .err .wrongLength ∧
    SecurityKey.deserializeBinary (SecurityKey.serializeBinary ⟨testKeyBytes⟩) =
      .ok ⟨testKeyBytes⟩ ∧
    SecurityKey.deserializeHuman (SecurityKey.serializeHuman ⟨testKeyBytes⟩) =
      .ok ⟨testKeyBytes⟩ :=
  ⟨(c8_serde_contract ⟨testKeyBytes⟩ ⟨by decide, by decide⟩).1,
   (c8_serde_contract ⟨testKeyBytes⟩ ⟨by decide, by decide⟩).2.2.2.1,
   (c8_serde_contract ⟨testKeyBytes⟩ ⟨by decide, by decide⟩).2.2.2.2.1 [0, 0, 0, 0] (by decide),
   (c8_serde_contract ⟨testKeyBytes⟩ ⟨by decide, by decide⟩).2.2.2.2.2.1,
   (c8_serde_contract ⟨testKeyBytes⟩ ⟨by decide, by decide⟩).2.2.2.2.2.2.2⟩

/-- C4 counterexample: the 64-character ASCII string alternating `+` and `0`
contains characters that are not hex digits, yet `from_hex` accepts it
(because `u8::from_str_radix` accepts a leading plus sign in each two-byte
slice), instead of failing with the invalid-digit error the claim requires;
and on a 64-byte string whose first character is multi-byte, `from_hex`
panics (byte slicing off a character boundary), so it can terminate in a way
the claim excludes. -/
theorem c4_counterexample :
    plusZeroStr.length = 64 ∧
    ('+' ∈ plusZeroStr ∧ hexVal ('+').toNat = none) ∧
    SecurityKey.from_hex plusZeroStr = .ok ⟨List.replicate 32 0⟩ ∧
    SecurityKey.from_hex euroStr = .panicked := by decide

/-- C4 (amended): for every input string of ASCII characters none of which
is `+`, `from_hex` fails with the wrong-length error when the length is not
exactly 64, fails with the invalid-digit parse error when the length is 64
and some character is not a hex digit, otherwise returns the key obtained by
consuming the string two characters at a time with the most-significant
nibble first; and it never panics on such input. -/
theorem c4_from_hex_amended (s : List Char) (hascii : ∀ c ∈ s, c.toNat < 128)
    (hplus : '+' ∉ s) :
    (s.length ≠ 64 → SecurityKey.from_hex s = .err .wrongLength) ∧
    (s.length = 64 → (∃ c ∈ s, hexVal c.toNat = none) →
      SecurityKey.from_hex s = .err .parseInt) ∧
    (s.length = 64 → (∀ c ∈ s, (hexVal c.toNat).isSome) →
      SecurityKey.from_hex s = .ok ⟨specPairDecode (s.map Char.toNat)⟩) ∧
    SecurityKey.from_hex s ≠ .panicked := by
  have hmap : utf8Bytes s = s.map Char.toNat := utf8Bytes_ascii hascii
  have hba : ∀ x ∈ s.map Char.toNat, x < 128 := by
    intro x hx
    rcases List.mem_map.mp hx with ⟨c, hc, rfl⟩
    exact hascii c hc
  have hb43 : 43 ∉ s.map Char.toNat := by
    intro hx
    rcases List.mem_map.mp hx with ⟨c, hc, hc43⟩
    have hcp : c = '+' := by
      have h2 := congrArg Char.ofNat hc43
      rw [Char.ofNat_toNat] at h2
      exact h2.trans (by decide)
    exact hplus (hcp ▸ hc)
  refine ⟨?_, ?_, ?_, from_hex_no_panic_ascii hascii⟩
  · intro hne
    unfold SecurityKey.from_hex
    rw [hmap]
    simp only [List.length_map]
    simp [hne]
  · intro h64 hbad
    unfold SecurityKey.from_hex
    rw [hmap]
    simp only [List.length_map, h64]
    norm_num
    rw [parsePairs_err_of_bad _ (by simp [h64]) hba hb43 ?_]
    rcases hbad with ⟨c, hc, hcv⟩
    exact ⟨c.toNat, List.mem_map_of_mem Char.toNat hc, hcv⟩
  · intro h64 hall
    unfold SecurityKey.from_hex
    rw [hmap]
    simp only [List.length_map, h64]
    norm_num
    rw [parsePairs_ok_of_hex _ (by simp [h64]) ?_]
    intro x hx
    rcases List.mem_map.mp hx with ⟨c, hc, rfl⟩
    exact hall c hc

/-- C4 witness: the three amended outcomes and the no-panic conclusion at
concrete ASCII inputs without a plus sign. -/
theorem c4_witness :
    SecurityKey.from_hex ['a', 'b'] = .err .wrongLength ∧
    SecurityKey.from_hex (List.replicate 64 'x') = .err .parseInt ∧
    SecurityKey.from_hex (List.replicate 64 '0') =
      .ok ⟨specPairDecode ((List.replicate 64 '0').map Char.toNat)⟩ ∧
    SecurityKey.from_hex (List.replicate 64 '0') ≠ .panicked :=
  ⟨(c4_from_hex_amended ['a', 'b'] (by decide) (by decide)).1 (by decide),
   (c4_from_hex_amended (List.replicate 64 'x') (by decide) (by decide)).2.1 (by decide)
     ⟨'x', by decide, by decide⟩,
   (c4_from_hex_amended (List.replicate 64 '0') (by decide) (by decide)).2.2.1 (by decide)
     (by decide),
   (c4_from_hex_amended (List.replicate 64 '0') (by decide) (by decide)).2.2.2⟩

/-- C5 counterexample: on the 62-character string of 64 UTF-8 bytes starting
with a multi-byte character, both decoders fail (hex by panicking, base64
with a decode error), yet `from_string` does not return the generic
not-suitable error the claim requires — it panics, because the byte length
is 64 and the hex attempt panics. -/
theorem c5_counterexample :
    euroStr.length = 62 ∧
    SecurityKey.from_base64 euroStr = .err .base64 ∧
    SecurityKey.from_string euroStr = .panicked ∧
    KResult.panicked ≠ KResult.err .notSuitable := by decide

/-- C5 (amended): for every ASCII input string, when the length is exactly
64 a successful hex decoding is returned first; when the length is not 64 or
hex decoding fails with an error, a successful base64 decoding is returned,
and the generic not-suitable error is returned when base64 also fails.  In
particular a 64-character valid-hex string always yields the hex
interpretation, even if it is also valid base64. -/
theorem c5_from_string_policy (s : List Char) (hascii : ∀ c ∈ s, c.toNat < 128) :
    (∀ k, s.length = 64 → SecurityKey.from_hex s = .ok k →
      SecurityKey.from_string s = .ok k) ∧
    ((s.length ≠ 64 ∨ ∃ e, SecurityKey.from_hex s = .err e) →
      (∀ k, SecurityKey.from_base64 s = .ok k → SecurityKey.from_string s = .ok k) ∧
      ((∀ k, SecurityKey.from_base64 s ≠ .ok k) →
        SecurityKey.from_string s = .err .notSuitable)) := by
  have hlen : (utf8Bytes s).length = s.length := by
    rw [utf8Bytes_ascii hascii]
    simp
  constructor
  · intro k h64 hok
    simp [SecurityKey.from_string, hlen, h64, hok]
  · intro hdisj
    have hstep : SecurityKey.from_string s =
        match SecurityKey.from_base64 s with
        | .ok k => .ok k
        | _ => .err .notSuitable := by
      rcases hdisj with hne | ⟨e, he⟩
      · simp [SecurityKey.from_string, hlen, hne]
      · by_cases h64 : s.length = 64
        · simp [SecurityKey.from_string, hlen, h64, he]
        · simp [SecurityKey.from_string, hlen, h64]
    constructor
    · intro k hok
      rw [hstep, hok]
    · intro hnone
      rw [hstep]
      cases hb : SecurityKey.from_base64 s with
      | ok k => exact absurd hb (hnone k)
      | err e => rfl
      | panicked => rfl

/-- C5 witness: the hex-first policy on the test key's hex string, the
base64 fallback on the test key's base64 string, and the generic error on a
string neither decoder accepts. -/
theorem c5_witness :
    SecurityKey.from_string (hexRender false testKeyBytes) = .ok ⟨testKeyBytes⟩ ∧
    SecurityKey.from_string testKeyBase64 = .ok ⟨testKeyBytes⟩ ∧
    SecurityKey.from_string (List.replicate 10 'x') = .err .notSuitable := by
  refine ⟨(c5_from_string_policy _ (by decide)).1 ⟨testKeyBytes⟩ (by decide) (by decide),
    ((c5_from_string_policy testKeyBase64 (by decide)).2 (Or.inl (by decide))).1
      ⟨testKeyBytes⟩ (by decide),
    ((c5_from_string_policy (List.replicate 10 'x') (by decide)).2 (Or.inl (by decide))).2 ?_⟩
  intro k hk
  rw [show SecurityKey.from_base64 (List.replicate 10 'x') = .err .base64 from by decide] at hk
  cases hk

example : SecurityKey.from_hex (SecurityKey.hex ⟨testKeyBytes⟩ false) = .ok ⟨testKeyBytes⟩ :=
  from_hex_hexRender (by decide) (by decide)

example : SecurityKey.from_base64 (b64Encode testKeyBytes) = .ok ⟨testKeyBytes⟩ :=
  from_base64_b64Encode (by decide) (by decide)
